import Mathlib

/-!
Verification of the gpu-session-tracker core (session.py, runner.py, cli.py)
via a shallow embedding. Commands and sessions are modelled as records whose
fields mirror the Python dataclasses; the runner is modelled as a pure
function from the command's prior state and the observed child-process
behaviour (emitted lines, interruption flag, return code) to the final
command state; persistence is modelled as an explicit per-directory store.
-/

namespace GpuTracker

/-- `MAX_LAST_OUTPUT` from runner.py line 13. -/
def MAX_LAST_OUTPUT : Nat := 20

/-- The `Command` dataclass of session.py lines 14-23. The `status` field is a
plain string, exactly as in the source (values "pending", "running", "done",
"interrupted", "skipped"); optional fields mirror the `Optional[...]` types,
with `duration_seconds` (a Python float) modelled as a rational. -/
structure Command where
  id : Nat
  cmd : String
  status : String := "pending"
  exit_code : Option Int := none
  started_at : Option String := none
  finished_at : Option String := none
  duration_seconds : Option Rat := none
  last_output : List String := []
  deriving Repr, DecidableEq, Inhabited

/-- The `Session` dataclass of session.py lines 33-39. -/
structure Session where
  id : String
  name : String
  created_at : String
  cwd : String
  commands : List Command := []
  deriving Repr, DecidableEq

/-- `Session.add_command` (session.py lines 66-71): the new id is
`max((c.id for c in self.commands), default=0) + 1`; ids are naturals, so the
fold seeded with 0 computes exactly that `max`-with-`default=0`. Returns the
updated session together with the returned `Command`. -/
def maxId (cs : List Command) : Nat :=
  cs.foldl (fun m c => max m c.id) 0

def Session.add_command (s : Session) (cmd : String) : Session × Command :=
  let next_id := maxId s.commands + 1
  let command : Command := { id := next_id, cmd := cmd }
  ({ s with commands := s.commands ++ [command] }, command)

/-- The loop of `Session.get_next` (session.py lines 73-77). -/
def getNextAux : List Command → Option Command
  | [] => none
  | c :: cs => if c.status = "pending" then some c else getNextAux cs

def Session.get_next (s : Session) : Option Command :=
  getNextAux s.commands

/-- The loop of `Session.get_interrupted` (session.py lines 79-83). -/
def getInterruptedAux : List Command → Option Command
  | [] => none
  | c :: cs => if c.status = "interrupted" then some c else getInterruptedAux cs

def Session.get_interrupted (s : Session) : Option Command :=
  getInterruptedAux s.commands

/-- The loop body of `Session.skip_interrupted` (session.py lines 88-97):
returns the final command list together with the list of (mutated, now
"skipped") commands appended in list order. -/
def skipPass : List Command → List Command × List Command
  | [] => ([], [])
  | c :: cs =>
      let rest := skipPass cs
      if c.status = "interrupted" then
        let c' : Command := { c with status := "skipped" }
        (c' :: rest.1, c' :: rest.2)
      else
        (c :: rest.1, rest.2)

/-- `Session.skip_interrupted`: the updated session, the returned skipped
commands, and whether `self.save()` was invoked (line 95-96: only when the
skipped list is non-empty). -/
def Session.skip_interrupted (s : Session) : Session × List Command × Bool :=
  let p := skipPass s.commands
  ({ s with commands := p.1 }, p.2, !p.2.isEmpty)

/-- What one observes of the child process in `run_command` when `Popen`
succeeds: the lines read off its stdout (after `rstrip`), the final value of
the `interrupted` flag (set by the signal handler, runner.py lines 56-60, or
by the exception handler, lines 72-76), and `proc.returncode` after the
process has been waited for (negative values encode death by signal). -/
structure ChildRun where
  lines : List String
  interrupted : Bool
  returncode : Int
  deriving Repr, DecidableEq

/-- The `deque(maxlen=MAX_LAST_OUTPUT)` fed by the read loop (runner.py
lines 24 and 66-68): appending to a full deque evicts the oldest element. -/
def bufferLines (lines : List String) : List String :=
  lines.foldl
    (fun buf l => if buf.length < MAX_LAST_OUTPUT then buf ++ [l] else buf.tail ++ [l]) []

/-- Runner.py lines 19-21: transition to running, record `started_at`, clear
`last_output`. This happens before `Popen` is attempted. -/
def startPhase (c : Command) (started : String) : Command :=
  { c with status := "running", started_at := some started, last_output := [] }

/-- Runner.py lines 83-95: final bookkeeping and classification, given the
finish timestamp, the (rounded) elapsed time and the observed child run. -/
def finishPhase (c : Command) (finished : String) (elapsed : Rat) (r : ChildRun) : Command :=
  let c1 : Command :=
    { c with duration_seconds := some elapsed,
             last_output := bufferLines r.lines,
             exit_code := some r.returncode }
  if r.interrupted = true ∨ r.returncode = -2 ∨ r.returncode = -9 ∨ r.returncode = -15 then
    { c1 with status := "interrupted" }
  else if r.returncode = 0 then
    { c1 with status := "done", finished_at := some finished }
  else
    { c1 with status := "interrupted", finished_at := some finished }

/-- Outcome of `run_command`: either it returns normally with the final
command state, or an exception escaped it (`raised`), carrying the state the
mutated command was left in. -/
inductive RunResult where
  | ok (c : Command)
  | raised (c : Command)
  deriving Repr, DecidableEq

/-- `run_command` (runner.py lines 17-98). The `child` argument is `none`
when `Popen` itself raises (spawn failure): `Popen` is called at lines 28-35,
outside the `try` of lines 65-76, so that exception escapes `run_command`
with the command left as `startPhase` set it (status "running"). When the
child spawns, the read loop, the signal handler and the exception handler of
lines 65-76 all funnel into the classification of lines 83-95, summarised by
the observed `ChildRun`. -/
def run_command (c : Command) (started finished : String) (elapsed : Rat)
    (child : Option ChildRun) : RunResult :=
  match child with
  | none => RunResult.raised (startPhase c started)
  | some r => RunResult.ok (finishPhase (startPhase c started) finished elapsed r)

/-- The state the command object holds after `run_command` ends, whether it
returned or raised (in both cases the session retains the mutated command). -/
def runState (c : Command) (started finished : String) (elapsed : Rat)
    (child : Option ChildRun) : Command :=
  match run_command c started finished elapsed child with
  | RunResult.ok c' => c'
  | RunResult.raised c' => c'

/-- The field reset performed by `cmd_retry` (cli.py lines 128-133) before
re-running an interrupted command. -/
def resetCommand (c : Command) : Command :=
  { c with status := "pending", exit_code := none, started_at := none,
           finished_at := none, duration_seconds := none, last_output := [] }

/-- The `--skip-errors` transition of `cmd_run_all` (cli.py line 107): the
just-run, non-done command's status is overwritten with "skipped"; no other
field is touched. -/
def skipErrors (c : Command) : Command :=
  { c with status := "skipped" }

/-- Replace the i-th command of a session by `f` applied to it (the in-place
mutation of one command object performed by the runner and the CLI). -/
def Session.updateAt (s : Session) (i : Nat) (f : Command → Command) : Session :=
  { s with commands := s.commands.set i (f (s.commands.getD i default)) }

/-- Session states reachable from a freshly created session (`create_session`
starts with an empty command list) by the public operations: `add_command`;
`run_command` on any pending command (covers `cmd_run`, `cmd_next --run`,
`cmd_run_all`, and the run half of `cmd_retry`); the status reset half of
`cmd_retry` on an interrupted command; `skip_interrupted`; and the
`--skip-errors` overwrite of `cmd_run_all` on the interrupted command it just
ran. -/
inductive Reachable : Session → Prop where
  | init (id name created cwd : String) :
      Reachable { id := id, name := name, created_at := created, cwd := cwd, commands := [] }
  | add (s : Session) (txt : String) :
      Reachable s → Reachable (s.add_command txt).1
  | run (s : Session) (i : Nat) (hi : i < s.commands.length)
      (hp : (s.commands.getD i default).status = "pending")
      (started finished : String) (elapsed : Rat) (child : Option ChildRun) :
      Reachable s →
      Reachable (s.updateAt i (fun c => runState c started finished elapsed child))
  | retryReset (s : Session) (i : Nat) (hi : i < s.commands.length)
      (hr : (s.commands.getD i default).status = "interrupted") :
      Reachable s →
      Reachable (s.updateAt i resetCommand)
  | skip (s : Session) :
      Reachable s → Reachable (s.skip_interrupted).1
  | skipErr (s : Session) (i : Nat) (hi : i < s.commands.length)
      (hr : (s.commands.getD i default).status = "interrupted") :
      Reachable s →
      Reachable (s.updateAt i skipErrors)

/-- The JSON-compatible object graph that `to_dict`/`asdict` serializes to and
`from_dict` reads back (session.py lines 25-30 and 41-55). -/
inductive Value where
  | null
  | int (n : Int)
  | num (q : Rat)
  | str (s : String)
  | arr (xs : List Value)
  | obj (kvs : List (String × Value))
  deriving Repr

def optStrVal : Option String → Value
  | none => Value.null
  | some s => Value.str s

def optIntVal : Option Int → Value
  | none => Value.null
  | some n => Value.int n

def optNumVal : Option Rat → Value
  | none => Value.null
  | some q => Value.num q

/-- `Command.to_dict` (session.py lines 25-26): `asdict` lists all eight
fields. -/
def Command.to_dict (c : Command) : Value :=
  Value.obj
    [("id", Value.int c.id),
     ("cmd", Value.str c.cmd),
     ("status", Value.str c.status),
     ("exit_code", optIntVal c.exit_code),
     ("started_at", optStrVal c.started_at),
     ("finished_at", optStrVal c.finished_at),
     ("duration_seconds", optNumVal c.duration_seconds),
     ("last_output", Value.arr (c.last_output.map Value.str))]

def asNat : Value → Option Nat
  | Value.int n => if 0 ≤ n then some n.toNat else none
  | _ => none

def asStr : Value → Option String
  | Value.str s => some s
  | _ => none

def asOptInt : Value → Option (Option Int)
  | Value.null => some none
  | Value.int n => some (some n)
  | _ => none

def asOptStr : Value → Option (Option String)
  | Value.null => some none
  | Value.str s => some (some s)
  | _ => none

def asOptNum : Value → Option (Option Rat)
  | Value.null => some none
  | Value.num q => some (some q)
  | _ => none

/-- Parse every element of a list, failing if any element fails. -/
def parseEach (f : Value → Option α) : List Value → Option (List α)
  | [] => some []
  | v :: vs => do
      let a ← f v
      let rest ← parseEach f vs
      pure (a :: rest)

def asStrList : Value → Option (List String)
  | Value.arr xs => parseEach asStr xs
  | _ => none

/-- Read key `k`; a missing key yields the dataclass field default `dflt`
(`cls(**d)` falls back to the field default when the key is absent). -/
def fieldOr (kvs : List (String × Value)) (k : String) (dflt : α)
    (parse : Value → Option α) : Option α :=
  match kvs.lookup k with
  | none => some dflt
  | some v => parse v

/-- `Command.from_dict` (session.py lines 28-30): `cls(**d)`. `id` and `cmd`
have no defaults and must be present; the remaining six fields fall back to
their dataclass defaults. -/
def Command.from_dict (v : Value) : Option Command :=
  match v with
  | Value.obj kvs => do
      let i ← (kvs.lookup "id").bind asNat
      let c ← (kvs.lookup "cmd").bind asStr
      let st ← fieldOr kvs "status" "pending" asStr
      let ec ← fieldOr kvs "exit_code" none asOptInt
      let sa ← fieldOr kvs "started_at" none asOptStr
      let fa ← fieldOr kvs "finished_at" none asOptStr
      let du ← fieldOr kvs "duration_seconds" none asOptNum
      let lo ← fieldOr kvs "last_output" [] asStrList
      pure { id := i, cmd := c, status := st, exit_code := ec, started_at := sa,
             finished_at := fa, duration_seconds := du, last_output := lo }
  | _ => none

/-- `Session.to_dict` (session.py lines 41-44). -/
def Session.to_dict (s : Session) : Value :=
  Value.obj
    [("id", Value.str s.id),
     ("name", Value.str s.name),
     ("created_at", Value.str s.created_at),
     ("cwd", Value.str s.cwd),
     ("commands", Value.arr (s.commands.map Command.to_dict))]

/-- `Session.from_dict` (session.py lines 46-55): `d.get("commands", [])`
with each entry parsed by `Command.from_dict`; `id`, `name`, `created_at`
and `cwd` are mandatory. -/
def Session.from_dict (v : Value) : Option Session :=
  match v with
  | Value.obj kvs => do
      let cmds ←
        match kvs.lookup "commands" with
        | none => some []
        | some (Value.arr xs) => parseEach Command.from_dict xs
        | some _ => none
      let i ← (kvs.lookup "id").bind asStr
      let n ← (kvs.lookup "name").bind asStr
      let ca ← (kvs.lookup "created_at").bind asStr
      let cw ← (kvs.lookup "cwd").bind asStr
      pure { id := i, name := n, created_at := ca, cwd := cw, commands := cmds }
  | _ => none

/-- The persistent state of one working directory's `.gpu-tracker` tracker
directory: the session files keyed by session id, and the
`active_session.json` pointer content (session.py lines 10-11, 57-64). -/
structure Store where
  files : List (String × Value)
  active : Option String

/-- Writing a file: overwrite the entry if the name exists, create otherwise. -/
def writeFile : List (String × Value) → String → Value → List (String × Value)
  | [], k, v => [(k, v)]
  | (k', v') :: rest, k, v =>
      if k' = k then (k, v) :: rest else (k', v') :: writeFile rest k v

/-- `Session.save` (session.py lines 57-64): write the session file keyed by
its id, then update the active-session pointer to this id. -/
def Session.save (s : Session) (st : Store) : Store :=
  { files := writeFile st.files s.id s.to_dict, active := some s.id }

/-- `load_session` (session.py lines 124-131): `none` when the file is
absent, otherwise deserialize. -/
def load_session (sid : String) (st : Store) : Option Session :=
  match st.files.lookup sid with
  | none => none
  | some v => Session.from_dict v

/-- `load_active_session` (session.py lines 134-144): `none` when the pointer
file is absent, otherwise load the pointed-to session. -/
def load_active_session (st : Store) : Option Session :=
  match st.active with
  | none => none
  | some sid => load_session sid st

/-- The list of ids of a command list. -/
def idsOf (cs : List Command) : List Nat :=
  cs.map (fun c => c.id)

/-- A session built from a base session by a sequence of `add_command` calls. -/
def buildSession (s : Session) (txts : List String) : Session :=
  txts.foldl (fun acc t => (acc.add_command t).1) s

/-- Per-element form of the `skip_interrupted` loop body: an interrupted
command becomes skipped, any other command is untouched. -/
def skipOne (c : Command) : Command :=
  if c.status = "interrupted" then { c with status := "skipped" } else c

/-- The exit-code/status relationship maintained by every reachable session
state: `exit_code` is populated exactly for commands whose status is "done",
"interrupted", or "skipped" (a skipped command keeps the exit code it had
when it was skipped). -/
def ExitInv (c : Command) : Prop :=
  c.exit_code ≠ none ↔
    (c.status = "done" ∨ c.status = "interrupted" ∨ c.status = "skipped")

/-- Concrete inputs used by the witness theorems below. -/
def sEmptyW : Session :=
  { id := "ses_1", name := "w", created_at := "t", cwd := "d", commands := [] }

def sInitW : Session :=
  { id := "s", name := "n", created_at := "t", cwd := "d", commands := [] }

def childW : ChildRun :=
  { lines := [], interrupted := false, returncode := 3 }

def cRunW : Command :=
  { id := 1, cmd := "exit 5" }

def rRunW : ChildRun :=
  { lines := [], interrupted := false, returncode := 5 }

def cSpawnW : Command :=
  { id := 1, cmd := "true" }

def linesW : List String :=
  (List.range 25).map (fun n => "line" ++ toString (n + 1))

def cBufW : Command :=
  { id := 1, cmd := "seq 25" }

def rBufW : ChildRun :=
  { lines := linesW, interrupted := false, returncode := 0 }

def sNextW : Session :=
  { id := "ses_2", name := "w", created_at := "t", cwd := "d",
    commands :=
      [{ id := 1, cmd := "a", status := "done", exit_code := some 0 },
       { id := 2, cmd := "b", status := "done", exit_code := some 0 }] }

def cSkipW : Command :=
  { id := 1, cmd := "exit 3", status := "skipped", exit_code := some 3,
    started_at := some "t0", finished_at := some "t1", duration_seconds := some 0 }

end GpuTracker

namespace GpuTracker

/-- C10: `add_command` appends exactly one new pending command with all
optional fields unset and empty `last_output`, leaving every prior command
and the session's other fields unchanged. -/
theorem claim_add_command_frame (s : Session) (t : String) :
    ((s.add_command t).1).id = s.id ∧
    ((s.add_command t).1).name = s.name ∧
    ((s.add_command t).1).created_at = s.created_at ∧
    ((s.add_command t).1).cwd = s.cwd ∧
    ((s.add_command t).1).commands = s.commands ++ [(s.add_command t).2] ∧
    ((s.add_command t).2).cmd = t ∧
    ((s.add_command t).2).status = "pending" ∧
    ((s.add_command t).2).exit_code = none ∧
    ((s.add_command t).2).started_at = none ∧
    ((s.add_command t).2).finished_at = none ∧
    ((s.add_command t).2).duration_seconds = none ∧
    ((s.add_command t).2).last_output = [] := by
  refine ⟨rfl, rfl, rfl, rfl, rfl, rfl, rfl, rfl, rfl, rfl, rfl, rfl⟩

/-- C3 counterexample: on a spawn failure (`Popen` raising, runner.py line 28
sits outside the `try` of line 65) the command is left with status "running",
not "interrupted": the claimed classification is false at this input. -/
theorem claim_spawn_failure_counterexample :
    ¬ ((runState cSpawnW "t0" "t1" 0 none).status = "interrupted" ∧
       (runState cSpawnW "t0" "t1" 0 none).exit_code = none) := by
  decide

/-- C3 amended: a spawn failure escapes `run_command` as an exception
(`RunResult.raised`); the command is left in the "running" state that the
start phase set, with `exit_code` still unset. -/
theorem claim_spawn_failure_amended (c : Command) (st ft : String) (el : Rat)
    (h : c.exit_code = none) :
    run_command c st ft el none = RunResult.raised (startPhase c st) ∧
    (runState c st ft el none).status = "running" ∧
    (runState c st ft el none).exit_code = none := by
  refine ⟨rfl, rfl, ?_⟩
  simp [runState, run_command, startPhase, h]

theorem claim_spawn_failure_amended_witness :
    cSpawnW.exit_code = none ∧ (runState cSpawnW "t0" "t1" 0 none).status = "running" :=
  ⟨rfl, (claim_spawn_failure_amended cSpawnW "t0" "t1" 0 rfl).2.1⟩

/-- C1: final classification of `run_command` (runner.py lines 88-95) on a
pending command whose child was spawned: interruption flag or a
SIGINT/SIGKILL/SIGTERM return code give "interrupted" (with `finished_at`
left unset in the signal-killed sub-case); exit code 0 gives "done" with
`exit_code = 0` and `finished_at` set; any other exit code gives
"interrupted" with that `exit_code` and `finished_at` set. -/
theorem claim_run_classification (c : Command) (st ft : String) (el : Rat) (r : ChildRun)
    (hp : c.status = "pending") (hf : c.finished_at = none) :
    ((r.interrupted = true ∨ r.returncode = -2 ∨ r.returncode = -9 ∨ r.returncode = -15) →
      (runState c st ft el (some r)).status = "interrupted" ∧
      ((r.returncode = -2 ∨ r.returncode = -9 ∨ r.returncode = -15) →
        (runState c st ft el (some r)).finished_at = none)) ∧
    ((r.interrupted = false ∧ r.returncode = 0) →
      (runState c st ft el (some r)).status = "done" ∧
      (runState c st ft el (some r)).exit_code = some 0 ∧
      (runState c st ft el (some r)).finished_at = some ft) ∧
    ((r.interrupted = false ∧ r.returncode ≠ -2 ∧ r.returncode ≠ -9 ∧
        r.returncode ≠ -15 ∧ r.returncode ≠ 0) →
      (runState c st ft el (some r)).status = "interrupted" ∧
      (runState c st ft el (some r)).exit_code = some r.returncode ∧
      (runState c st ft el (some r)).finished_at = some ft) := by
  refine ⟨fun h => ?_, fun h => ?_, fun h => ?_⟩
  · simp only [runState, run_command, finishPhase, startPhase, if_pos h]
    exact ⟨by simp, fun _ => hf⟩
  · have hneg : ¬ (r.interrupted = true ∨ r.returncode = -2 ∨ r.returncode = -9 ∨
        r.returncode = -15) := by
      simp [h.1, h.2]
    simp only [runState, run_command, finishPhase, startPhase, if_neg hneg, if_pos h.2]
    simp [h.2]
  · have hneg : ¬ (r.interrupted = true ∨ r.returncode = -2 ∨ r.returncode = -9 ∨
        r.returncode = -15) := by
      simp [h.1, h.2.1, h.2.2.1, h.2.2.2.1]
    simp only [runState, run_command, finishPhase, startPhase, if_neg hneg,
      if_neg h.2.2.2.2]
    simp

theorem claim_run_classification_witness :
    cRunW.status = "pending" ∧ cRunW.finished_at = none ∧
    (runState cRunW "t0" "t1" 0 (some rRunW)).status = "interrupted" ∧
    (runState cRunW "t0" "t1" 0 (some rRunW)).exit_code = some 5 ∧
    (runState cRunW "t0" "t1" 0 (some rRunW)).finished_at = some "t1" := by
  have h := (claim_run_classification cRunW "t0" "t1" 0 rRunW rfl rfl).2.2 (by decide)
  exact ⟨rfl, rfl, h.1, h.2.1, h.2.2⟩

/-- The deque contents after feeding `l` equal the last `MAX_LAST_OUTPUT`
elements of `l` (all of `l` when it is short enough). -/
theorem bufferLines_eq (l : List String) :
    bufferLines l = l.drop (l.length - MAX_LAST_OUTPUT) := by
  induction l using List.reverseRecOn with
  | nil => rfl
  | append_singleton l x ih =>
    simp only [MAX_LAST_OUTPUT] at ih ⊢
    have hstep : bufferLines (l ++ [x]) =
        (if (bufferLines l).length < 20 then bufferLines l ++ [x]
         else (bufferLines l).tail ++ [x]) := by
      simp [bufferLines, List.foldl_append, MAX_LAST_OUTPUT]
    have hlen : (bufferLines l).length = l.length - (l.length - 20) := by
      rw [ih, List.length_drop]
    have hlapp : (l ++ [x]).length = l.length + 1 := by
      simp
    rcases Nat.lt_or_ge l.length 20 with hlt | hge
    · have h20 : l.length - 20 = 0 := Nat.sub_eq_zero_of_le (Nat.le_of_lt hlt)
      have hbl : (bufferLines l).length < 20 := by omega
      rw [hstep, if_pos hbl, ih, h20, List.drop_zero]
      have h20' : (l ++ [x]).length - 20 = 0 := by omega
      rw [h20', List.drop_zero]
    · have hbl : ¬ (bufferLines l).length < 20 := by omega
      rw [hstep, if_neg hbl, ih, List.tail_drop]
      have hle : (l ++ [x]).length - 20 = l.length - 20 + 1 := by omega
      rw [hle, List.drop_append_of_le_length (by omega)]

/-- C4: after a run, `last_output` holds at most `MAX_LAST_OUTPUT` lines, and
for a child emitting more than `MAX_LAST_OUTPUT` lines it equals exactly the
last `MAX_LAST_OUTPUT` lines in emission order. -/
theorem claim_last_output_ring_buffer (c : Command) (st ft : String) (el : Rat)
    (r : ChildRun) :
    (runState c st ft el (some r)).last_output.length ≤ MAX_LAST_OUTPUT ∧
    (MAX_LAST_OUTPUT < r.lines.length →
      (runState c st ft el (some r)).last_output =
        r.lines.drop (r.lines.length - MAX_LAST_OUTPUT)) := by
  have hlo : (runState c st ft el (some r)).last_output = bufferLines r.lines := by
    simp only [runState, run_command, finishPhase, startPhase]
    split
    · rfl
    · split <;> rfl
  constructor
  · rw [hlo, bufferLines_eq, List.length_drop]
    simp only [MAX_LAST_OUTPUT]
    omega
  · intro _
    rw [hlo, bufferLines_eq]

theorem claim_last_output_ring_buffer_witness :
    MAX_LAST_OUTPUT < rBufW.lines.length ∧
    (runState cBufW "t0" "t1" 0 (some rBufW)).last_output =
      rBufW.lines.drop (rBufW.lines.length - MAX_LAST_OUTPUT) :=
  ⟨by decide, (claim_last_output_ring_buffer cBufW "t0" "t1" 0 rBufW).2 (by decide)⟩

/-- The fold computing the running maximum never goes below its seed. -/
theorem foldl_max_ge (cs : List Command) (a : Nat) :
    a ≤ cs.foldl (fun m c => max m c.id) a := by
  induction cs generalizing a with
  | nil => exact Nat.le_refl a
  | cons c cs ih =>
      simp only [List.foldl_cons]
      exact Nat.le_trans (Nat.le_max_left a c.id) (ih (max a c.id))

/-- Every member's id is bounded by the running maximum. -/
theorem mem_le_foldl_max : ∀ (cs : List Command) (a : Nat) (c : Command), c ∈ cs →
    c.id ≤ cs.foldl (fun m x => max m x.id) a
  | [], _, c, hc => absurd hc (List.not_mem_nil c)
  | d :: cs, a, c, hc => by
      simp only [List.foldl_cons]
      rcases List.mem_cons.mp hc with rfl | hmem
      · exact Nat.le_trans (Nat.le_max_right a c.id) (foldl_max_ge cs _)
      · exact mem_le_foldl_max cs _ c hmem

theorem le_maxId (cs : List Command) (c : Command) (hc : c ∈ cs) : c.id ≤ maxId cs :=
  mem_le_foldl_max cs 0 c hc

theorem maxId_append (cs : List Command) (c : Command) :
    maxId (cs ++ [c]) = max (maxId cs) c.id := by
  simp [maxId, List.foldl_append]

/-- One `add_command` step preserves the "ids are 1..n and the max is n"
invariant. -/
theorem add_command_invariant (s : Session) (t : String)
    (h1 : idsOf s.commands = List.range' 1 s.commands.length)
    (h2 : maxId s.commands = s.commands.length) :
    idsOf ((s.add_command t).1).commands =
      List.range' 1 ((s.add_command t).1).commands.length ∧
    maxId ((s.add_command t).1).commands = ((s.add_command t).1).commands.length := by
  have hcmds : ((s.add_command t).1).commands =
      s.commands ++ [{ id := maxId s.commands + 1, cmd := t }] := rfl
  constructor
  · rw [hcmds]
    simp only [idsOf, List.map_append, List.length_append, List.map_cons, List.map_nil,
      List.length_cons, List.length_nil]
    rw [show idsOf s.commands = s.commands.map (fun c => c.id) from rfl] at h1
    rw [h1, h2, List.range'_concat]
    simp [Nat.add_comm]
  · rw [hcmds, maxId_append, h2]
    simp [List.length_append, Nat.max_def]

/-- Ids of a session built by appends on top of the 1..n invariant. -/
theorem buildSession_invariant (txts : List String) : ∀ (s : Session),
    idsOf s.commands = List.range' 1 s.commands.length →
    maxId s.commands = s.commands.length →
    idsOf (buildSession s txts).commands =
        List.range' 1 (buildSession s txts).commands.length ∧
      maxId (buildSession s txts).commands = (buildSession s txts).commands.length ∧
      (buildSession s txts).commands.length = s.commands.length + txts.length := by
  induction txts with
  | nil => intro s h1 h2; exact ⟨h1, h2, rfl⟩
  | cons t txts ih =>
      intro s h1 h2
      have hstep := add_command_invariant s t h1 h2
      have hbuild : buildSession s (t :: txts) = buildSession (s.add_command t).1 txts := rfl
      have hlen : ((s.add_command t).1).commands.length = s.commands.length + 1 := by
        have : ((s.add_command t).1).commands =
            s.commands ++ [{ id := maxId s.commands + 1, cmd := t }] := rfl
        rw [this]
        simp
      obtain ⟨g1, g2, g3⟩ := ih (s.add_command t).1 hstep.1 hstep.2
      rw [hbuild]
      refine ⟨g1, g2, ?_⟩
      rw [g3, hlen]
      simp only [List.length_cons]
      omega

/-- C5: `add_command` assigns id `max existing + 1` (1 on an empty list), the
assigned id is fresh in any session state (so it is never a reuse, whatever
status mutations happened), and a session built only by appends from an empty
command list carries exactly the ids 1, 2, ..., n in order. -/
theorem claim_append_id_assignment (s : Session) (t : String) (txts : List String) :
    ((s.add_command t).2).id = maxId s.commands + 1 ∧
    ((s.add_command t).2).id ∉ idsOf s.commands ∧
    (s.commands = [] → idsOf (buildSession s txts).commands = List.range' 1 txts.length) := by
  refine ⟨rfl, ?_, ?_⟩
  · intro hmem
    simp only [idsOf, List.mem_map] at hmem
    obtain ⟨c, hc, hid⟩ := hmem
    have hle := le_maxId s.commands c hc
    have hfresh : ((s.add_command t).2).id = maxId s.commands + 1 := rfl
    omega
  · intro hempty
    have h1 : idsOf s.commands = List.range' 1 s.commands.length := by
      rw [hempty]; rfl
    have h2 : maxId s.commands = s.commands.length := by
      rw [hempty]; rfl
    obtain ⟨g1, _, g3⟩ := buildSession_invariant txts s h1 h2
    rw [g1, g3, hempty]
    simp

theorem claim_append_id_assignment_witness :
    sEmptyW.commands = [] ∧
    idsOf (buildSession sEmptyW ["a", "b", "c"]).commands = List.range' 1 3 :=
  ⟨rfl, (claim_append_id_assignment sEmptyW "x" ["a", "b", "c"]).2.2 rfl⟩

theorem skipPass_fst (cs : List Command) : (skipPass cs).1 = cs.map skipOne := by
  induction cs with
  | nil => rfl
  | cons c cs ih =>
      by_cases h : c.status = "interrupted" <;> simp [skipPass, skipOne, h, ih]

theorem skipPass_snd (cs : List Command) :
    (skipPass cs).2 = (cs.filter (fun c => c.status == "interrupted")).map
      (fun c => { c with status := "skipped" }) := by
  induction cs with
  | nil => rfl
  | cons c cs ih =>
      by_cases h : c.status = "interrupted" <;>
        simp [skipPass, h, ih, List.filter_cons]

theorem skipOne_not_interrupted (c : Command) : (skipOne c).status ≠ "interrupted" := by
  unfold skipOne
  split
  · simp
  · assumption

theorem skipOne_of_not_interrupted (c : Command) (h : c.status ≠ "interrupted") :
    skipOne c = c := by
  unfold skipOne
  rw [if_neg h]

theorem map_skipOne_idem (cs : List Command) :
    (cs.map skipOne).map skipOne = cs.map skipOne := by
  induction cs with
  | nil => rfl
  | cons c cs ih =>
      simp only [List.map_cons, ih, List.cons.injEq, and_true]
      exact skipOne_of_not_interrupted (skipOne c) (skipOne_not_interrupted c)

theorem filter_map_skipOne (cs : List Command) :
    (cs.map skipOne).filter (fun c => c.status == "interrupted") = [] := by
  rw [List.filter_eq_nil_iff]
  intro c hc
  simp only [List.mem_map] at hc
  obtain ⟨d, _, rfl⟩ := hc
  simpa using skipOne_not_interrupted d

/-- C6: `skip_interrupted` turns every interrupted command into a skipped one
(leaving the others alone), returns exactly the mutated interrupted commands
in list order, persists exactly when that list is non-empty, and is
idempotent: an immediate second call returns nothing, writes nothing, and
leaves the session unchanged. -/
theorem claim_skip_interrupted (s : Session) :
    (s.skip_interrupted).1.commands = s.commands.map skipOne ∧
    (s.skip_interrupted).2.1 = (s.commands.filter (fun c => c.status == "interrupted")).map
      (fun c => { c with status := "skipped" }) ∧
    ((s.skip_interrupted).2.2 = true ↔ (s.skip_interrupted).2.1 ≠ []) ∧
    ((s.skip_interrupted).1.skip_interrupted).2.1 = [] ∧
    ((s.skip_interrupted).1.skip_interrupted).2.2 = false ∧
    ((s.skip_interrupted).1.skip_interrupted).1 = (s.skip_interrupted).1 := by
  have h1 : (s.skip_interrupted).1.commands = s.commands.map skipOne := by
    simp [Session.skip_interrupted, skipPass_fst]
  have h4 : ((s.skip_interrupted).1.skip_interrupted).2.1 = [] := by
    show (skipPass ((s.skip_interrupted).1.commands)).2 = []
    rw [h1, skipPass_snd, filter_map_skipOne]
    rfl
  refine ⟨h1, ?_, ?_, h4, ?_, ?_⟩
  · simp [Session.skip_interrupted, skipPass_snd]
  · simp [Session.skip_interrupted, List.isEmpty_iff]
  · simp only [Session.skip_interrupted] at h4 ⊢
    rw [h4]
    rfl
  · have hcomm : (skipPass ((s.skip_interrupted).1.commands)).1 =
        (s.skip_interrupted).1.commands := by
      rw [h1, skipPass_fst, map_skipOne_idem]
    show ({ (s.skip_interrupted).1 with
        commands := (skipPass ((s.skip_interrupted).1.commands)).1 } : Session) =
      (s.skip_interrupted).1
    rw [hcomm]

theorem getNextAux_eq_none (cs : List Command) :
    getNextAux cs = none ↔ ∀ c ∈ cs, c.status ≠ "pending" := by
  induction cs with
  | nil => simp [getNextAux]
  | cons c cs ih =>
      by_cases h : c.status = "pending" <;> simp [getNextAux, h, ih]

theorem getNextAux_eq_some (cs : List Command) (c : Command) (h : getNextAux cs = some c) :
    c.status = "pending" ∧
    ∃ pre post, cs = pre ++ c :: post ∧ ∀ x ∈ pre, x.status ≠ "pending" := by
  induction cs with
  | nil => cases h
  | cons d cs ih =>
      by_cases hd : d.status = "pending"
      · simp only [getNextAux, if_pos hd] at h
        injection h with h
        subst h
        exact ⟨hd, [], cs, rfl, by simp⟩
      · simp only [getNextAux, if_neg hd] at h
        obtain ⟨hp, pre, post, hcs, hpre⟩ := ih h
        refine ⟨hp, d :: pre, post, by rw [hcs]; rfl, ?_⟩
        intro x hx
        rcases List.mem_cons.mp hx with rfl | hmem
        · exact hd
        · exact hpre x hmem

theorem getNextAux_lowest (cs : List Command)
    (hinc : List.Pairwise (fun a b => a.id < b.id) cs) (c : Command)
    (h : getNextAux cs = some c) :
    ∀ c' ∈ cs, c'.status = "pending" → c.id ≤ c'.id := by
  obtain ⟨hp, pre, post, hcs, hpre⟩ := getNextAux_eq_some cs c h
  subst hcs
  intro c' hc' hp'
  rcases List.mem_append.mp hc' with hmem | hmem
  · exact absurd hp' (hpre c' hmem)
  · rcases List.mem_cons.mp hmem with rfl | hmem
    · exact Nat.le_refl _
    · have hcp := (List.pairwise_append.mp hinc).2.1
      exact Nat.le_of_lt ((List.pairwise_cons.mp hcp).1 c' hmem)

/-- C8: `get_next` returns the first command in list order with status
"pending" (`none` when there is none); when ids increase along the list — as
they do for any session built only by appends — this is also the lowest-id
pending command. -/
theorem claim_next_pending (s : Session)
    (hinc : List.Pairwise (fun a b => a.id < b.id) s.commands) :
    (s.get_next = none ↔ ∀ c ∈ s.commands, c.status ≠ "pending") ∧
    (∀ c, s.get_next = some c →
      c.status = "pending" ∧
      (∃ pre post, s.commands = pre ++ c :: post ∧ ∀ x ∈ pre, x.status ≠ "pending") ∧
      (∀ c' ∈ s.commands, c'.status = "pending" → c.id ≤ c'.id)) := by
  refine ⟨getNextAux_eq_none s.commands, fun c h => ?_⟩
  have h2 := getNextAux_eq_some s.commands c h
  exact ⟨h2.1, h2.2, getNextAux_lowest s.commands hinc c h⟩

theorem claim_next_pending_witness :
    List.Pairwise (fun a b => a.id < b.id) sNextW.commands ∧
    (sNextW.get_next = none ↔ ∀ c ∈ sNextW.commands, c.status ≠ "pending") :=
  ⟨by decide, (claim_next_pending sNextW (by decide)).1⟩

theorem parseEach_map_asStr (ls : List String) :
    parseEach asStr (ls.map Value.str) = some ls := by
  induction ls with
  | nil => rfl
  | cons x ls ih => simp [parseEach, asStr, ih]

/-- Serializing one command and parsing it back restores it field for field. -/
theorem command_from_to (c : Command) :
    Command.from_dict (Command.to_dict c) = some c := by
  obtain ⟨i, cm, stt, ec, sa, fa, du, lo⟩ := c
  cases ec <;> cases sa <;> cases fa <;> cases du <;>
    simp [Command.to_dict, Command.from_dict, fieldOr, List.lookup, asNat, asStr,
      asOptInt, asOptStr, asOptNum, asStrList, optStrVal, optIntVal, optNumVal,
      parseEach_map_asStr, Int.toNat_natCast]

theorem parseEach_map_cmd (cs : List Command) :
    parseEach Command.from_dict (cs.map Command.to_dict) = some cs := by
  induction cs with
  | nil => rfl
  | cons c cs ih => simp [parseEach, command_from_to c, ih]

/-- Serializing a session and parsing it back restores it, commands included. -/
theorem session_from_to (s : Session) :
    Session.from_dict (Session.to_dict s) = some s := by
  obtain ⟨i, n, ca, cw, cs⟩ := s
  simp [Session.to_dict, Session.from_dict, List.lookup, asStr, parseEach_map_cmd]

/-- C7: round-trip — `Session.from_dict` applied to `Session.to_dict`
reproduces the session, with the command list identical field for field over
all eight `Command` fields (including `last_output`). -/
theorem claim_session_round_trip (s : Session) :
    Session.from_dict (Session.to_dict s) = some s :=
  session_from_to s

theorem lookup_writeFile (files : List (String × Value)) (k : String) (v : Value) :
    (writeFile files k v).lookup k = some v := by
  induction files with
  | nil => simp [writeFile, List.lookup]
  | cons kv files ih =>
      by_cases h : kv.1 = k
      · simp [writeFile, h, List.lookup]
      · obtain ⟨k', v'⟩ := kv
        simp only at h
        have hb : (k == k') = false := beq_eq_false_iff_ne.mpr (Ne.symm h)
        simp [writeFile, h, List.lookup, ih, hb]

/-- C9: every save points the active-session pointer at the saved session's
id, so `load_active_session` returns the most recently saved session of the
directory, whatever was saved before (including after any longer sequence of
saves); with no pointer present it returns `none`, not an error. -/
theorem claim_active_pointer (s : Session) (st : Store) (ss : List Session)
    (fs : List (String × Value)) :
    (s.save st).active = some s.id ∧
    load_active_session (s.save st) = some s ∧
    load_active_session (s.save (ss.foldl (fun acc x => x.save acc) st)) = some s ∧
    load_active_session { files := fs, active := none } = none := by
  refine ⟨rfl, ?_, ?_, rfl⟩ <;>
    simp [load_active_session, Session.save, load_session, lookup_writeFile, session_from_to]

theorem exitInv_pending_none (c : Command) (hp : c.status = "pending") (h : ExitInv c) :
    c.exit_code = none := by
  by_contra hne
  rcases h.mp hne with h1 | h1 | h1 <;> rw [hp] at h1 <;> exact absurd h1 (by decide)

theorem exitInv_run (c : Command) (st ft : String) (el : Rat) (child : Option ChildRun)
    (hp : c.status = "pending") (hinv : ExitInv c) :
    ExitInv (runState c st ft el child) := by
  have hec : c.exit_code = none := exitInv_pending_none c hp hinv
  cases child with
  | none => simp [ExitInv, runState, run_command, startPhase, hec]
  | some r =>
      simp only [runState, run_command, finishPhase, startPhase]
      split
      · simp [ExitInv]
      · split
        · simp [ExitInv]
        · simp [ExitInv]

theorem exitInv_skipOne (c : Command) (h : ExitInv c) : ExitInv (skipOne c) := by
  unfold skipOne
  split
  · rename_i hi
    have hne : c.exit_code ≠ none := h.mpr (Or.inr (Or.inl hi))
    simp [ExitInv, hne]
  · exact h

theorem exitInv_reset (c : Command) : ExitInv (resetCommand c) := by
  simp [ExitInv, resetCommand]

theorem exitInv_skipErrors (c : Command) (hi : c.status = "interrupted") (h : ExitInv c) :
    ExitInv (skipErrors c) := by
  have hne : c.exit_code ≠ none := h.mpr (Or.inr (Or.inl hi))
  simp [ExitInv, skipErrors, hne]

theorem exitInv_new (n : Nat) (t : String) : ExitInv { id := n, cmd := t } := by
  simp only [ExitInv]
  decide

theorem getD_mem_of_lt (cs : List Command) (i : Nat) (hi : i < cs.length) :
    cs.getD i default ∈ cs := by
  rw [List.getD_eq_getElem cs default hi]
  exact List.getElem_mem hi

/-- Every command of every reachable session state satisfies `ExitInv`. -/
theorem reachable_exit_inv (s : Session) (h : Reachable s) :
    ∀ c ∈ s.commands, ExitInv c := by
  induction h with
  | init id name created cwd =>
      intro c hc
      cases hc
  | add s txt _ ih =>
      intro c hc
      rw [show ((s.add_command txt).1).commands =
        s.commands ++ [{ id := maxId s.commands + 1, cmd := txt }] from rfl] at hc
      rcases List.mem_append.mp hc with hmem | hmem
      · exact ih c hmem
      · rcases List.mem_cons.mp hmem with rfl | hmem
        · exact exitInv_new _ _
        · cases hmem
  | run s i hi hp started finished elapsed child _ ih =>
      intro c hc
      rw [show (s.updateAt i (fun c => runState c started finished elapsed child)).commands =
        s.commands.set i
          (runState (s.commands.getD i default) started finished elapsed child) from rfl] at hc
      rcases List.mem_or_eq_of_mem_set hc with hmem | rfl
      · exact ih c hmem
      · exact exitInv_run _ _ _ _ _ hp (ih _ (getD_mem_of_lt s.commands i hi))
  | retryReset s i hi hr _ ih =>
      intro c hc
      rw [show (s.updateAt i resetCommand).commands =
        s.commands.set i (resetCommand (s.commands.getD i default)) from rfl] at hc
      rcases List.mem_or_eq_of_mem_set hc with hmem | rfl
      · exact ih c hmem
      · exact exitInv_reset _
  | skip s _ ih =>
      intro c hc
      rw [show ((s.skip_interrupted).1).commands = (skipPass s.commands).1 from rfl,
        skipPass_fst] at hc
      rcases List.mem_map.mp hc with ⟨d, hd, rfl⟩
      exact exitInv_skipOne d (ih d hd)
  | skipErr s i hi hr _ ih =>
      intro c hc
      rw [show (s.updateAt i skipErrors).commands =
        s.commands.set i (skipErrors (s.commands.getD i default)) from rfl] at hc
      rcases List.mem_or_eq_of_mem_set hc with hmem | rfl
      · exact ih c hmem
      · exact exitInv_skipErrors _ hr (ih _ (getD_mem_of_lt s.commands i hi))

/-- C2 counterexample: run "exit 3" (child exits with code 3, giving status
"interrupted" and `exit_code = 3`), then `skip_interrupted`: the resulting
reachable state holds a "skipped" command whose `exit_code` is still set, so
"`exit_code` set iff status ∈ {done, interrupted}" is false. -/
theorem claim_exit_code_iff_counterexample :
    ¬ (∀ s : Session, Reachable s → ∀ c ∈ s.commands,
        (c.exit_code ≠ none ↔ (c.status = "done" ∨ c.status = "interrupted"))) := by
  intro hall
  have h0 : Reachable sInitW := Reachable.init "s" "n" "t" "d"
  have h1 := Reachable.add sInitW "exit 3" h0
  have h2 := Reachable.run ((sInitW.add_command "exit 3").1) 0 (by decide) (by decide)
      "t0" "t1" 0 (some childW) h1
  have h3 := Reachable.skip _ h2
  have hmem : cSkipW ∈ ((((sInitW.add_command "exit 3").1).updateAt 0
      (fun c => runState c "t0" "t1" 0 (some childW))).skip_interrupted).1.commands := by
    decide
  have hiff := hall _ h3 cSkipW hmem
  rcases hiff.mp (by decide) with h' | h' <;> exact absurd h' (by decide)

/-- C2 amended: in every reachable session state, `exit_code` is set if and
only if status ∈ {done, interrupted, skipped}: the original iff must admit
"skipped", because `skip_interrupted` and run-all `--skip-errors` keep the
exit code of the interrupted command they mark skipped. -/
theorem claim_exit_code_invariant (s : Session) (h : Reachable s) :
    ∀ c ∈ s.commands,
      (c.exit_code ≠ none ↔
        (c.status = "done" ∨ c.status = "interrupted" ∨ c.status = "skipped")) :=
  reachable_exit_inv s h

theorem claim_exit_code_invariant_witness :
    cSkipW.exit_code ≠ none ↔
      (cSkipW.status = "done" ∨ cSkipW.status = "interrupted" ∨
        cSkipW.status = "skipped") := by
  have h0 : Reachable sInitW := Reachable.init "s" "n" "t" "d"
  have h1 := Reachable.add sInitW "exit 3" h0
  have h2 := Reachable.run ((sInitW.add_command "exit 3").1) 0 (by decide) (by decide)
      "t0" "t1" 0 (some childW) h1
  have h3 := Reachable.skip _ h2
  exact claim_exit_code_invariant _ h3 cSkipW (by decide)

end GpuTracker
